import Mathlib

/-!
Shallow embedding of the cache-locking coordination runtime
(`CacheLockingRuntime.getOrSetEffect` and its helpers), together with the
validation layer (`validation.ts`), the hook runner (`hooks.ts`) and the
phase runner's error mapping (`phase-runner.ts`).

The runtime is modelled as a deterministic, sequential interpreter over an
oracle environment `Env` describing the behaviour of the external
collaborators (cache backend, lease backend, fetcher, hooks, wait
strategy).  Every side-effecting step appends an `Event` to a trace, so the
frame properties of the specification ("a follower never mutates the
cache", "release is attempted exactly once", ...) become statements about
event counts in the trace.  Real time is modelled by a `now` counter that
only the inter-poll sleep advances; the real-time `Effect.timeoutFail`
bound on the follower wait loop is modelled by the loop's fuel parameter,
whose exhaustion behaves exactly like the caught `WAIT_TIMEOUT` (the loop
result becomes `none`).
-/

namespace CacheLocking

/-- Error tags of the cache-locking error taxonomy (`errors.ts`). -/
inductive ErrTag
  | VALIDATION_ERROR
  | CACHE_GET_FAILED
  | CACHE_SET_FAILED
  | LEASE_ACQUIRE_FAILED
  | LEASE_RELEASE_FAILED
  | LEASE_READY_FAILED
  | FETCHER_FAILED
  | HOOK_FAILED
  | WAIT_STRATEGY_FAILED
  | WAIT_FAILED
  | ABORTED
deriving DecidableEq, Repr

/-- Raw value thrown by user code or an adapter: either an arbitrary
opaque value (`raw`), or an object that is already a tagged cache-locking
error (`tagged`), which `PhaseRunner.mapError` re-raises unchanged. -/
inductive Thrown
  | raw (code : Nat)
  | tagged (t : ErrTag)
deriving DecidableEq, Repr

/-- Embeds `PhaseRunner.mapError`: an already-tagged cache-locking error is
cloned with its tag preserved; any other cause is wrapped with the phase's
tag. -/
def mapThrown (phase : ErrTag) : Thrown → ErrTag
  | .tagged t => t
  | .raw _ => phase

/-- Embeds the `catch` mapping of `PhaseRunner.runPromise` / `runSync`. -/
def mapExc (phase : ErrTag) {A : Type} : Except Thrown A → Except ErrTag A
  | .ok a => .ok a
  | .error t => .error (mapThrown phase t)

/-- Lease role returned by `leases.acquire` (`types.ts` `LeaseRole`). -/
inductive Role
  | leader
  | follower
deriving DecidableEq, Repr

/-- Result of `leases.acquire` (`types.ts` `LeaseAcquireResult`). -/
structure LeaseAcquireResult where
  role : Role
  leaseUntil : Nat
deriving DecidableEq, Repr

/-- Readiness state returned by `leases.isReady` (`types.ts`
`LeaseReadyState`); the optional `expired` field defaults to `false`. -/
structure LeaseReadyState where
  ready : Bool
  expired : Bool
deriving DecidableEq, Repr

/-- Outcome classification (`types.ts` `CacheOutcome`). -/
inductive CacheOutcome
  | HIT
  | MISS_LEADER
  | MISS_LEADER_NOCACHE
  | MISS_FOLLOWER_HIT
  | MISS_FOLLOWER_FALLBACK
deriving DecidableEq, Repr

/-- Result metadata built by `CacheLockingRuntime.buildMeta`: `leaseUntil`
and `waited` are optional fields, absent when `buildMeta` is called
without them. -/
structure CacheMeta where
  cache : CacheOutcome
  leaseUntil : Option Nat
  waited : Option Nat
deriving DecidableEq, Repr

/-- Successful result of a `getOrSet` call (`types.ts` `GetOrSetResult`). -/
structure GetOrSetResult (V : Type) where
  value : V
  meta : CacheMeta
deriving DecidableEq, Repr

/-- Follower wait outcome kind, the `'HIT' | 'FALLBACK'` string union of
`types.ts` `WaitOutcome`. -/
inductive WaitKind
  | hit
  | fallback
deriving DecidableEq, Repr

/-- Result of `CacheLockingRuntime.waitForCache` (`types.ts`
`WaitOutcome`), with `waited` in milliseconds. -/
structure WaitOutcome (V : Type) where
  value : Option V
  waited : Nat
  outcome : WaitKind
deriving DecidableEq, Repr

/-- Hook event kinds of `CacheLockingHooks`. -/
inductive HookKind
  | onHit
  | onLeader
  | onFollowerWait
  | onFallback
deriving DecidableEq, Repr

/-- Which hook slot ran: the instance-default (`base`) hook or the
per-call (`override`) hook of `HookRunner`. -/
inductive HookSlot
  | base
  | override
deriving DecidableEq, Repr

/-- Observable side effects of one `getOrSet` call.  `pollStep` marks the
start of one execution of the `poll` step inside `waitForCache`;
`sleep` records the bounded inter-poll delay of the retry schedule. -/
inductive Event (V : Type)
  | cacheGet
  | cacheSet (value : V) (ttl : Option Nat)
  | leaseAcquire (owner : String) (ttl : Nat)
  | leaseRelease (owner : String)
  | leaseMarkReady
  | leaseIsReady
  | fetchRun
  | hookRun (kind : HookKind) (slot : HookSlot)
  | strategyRun (attempt : Nat)
  | sleep (ms : Nat)
  | pollStep
deriving DecidableEq, Repr

/-- Interpreter state: the event trace of the call so far and the current
clock value in milliseconds. -/
structure St (V : Type) where
  trace : List (Event V)
  now : Nat
deriving DecidableEq, Repr

/-- Initial state of a call. -/
def st0 {V : Type} : St V := ⟨[], 0⟩

/-- Counts the events of a trace satisfying a predicate. -/
def countE {V : Type} (p : Event V → Bool) (tr : List (Event V)) : Nat :=
  tr.countP p

/-- Recognizes `cache.get` events. -/
def isCacheGetE {V : Type} : Event V → Bool
  | .cacheGet => true
  | _ => false

/-- Recognizes `cache.set` events. -/
def isCacheSetE {V : Type} : Event V → Bool
  | .cacheSet _ _ => true
  | _ => false

/-- Recognizes `leases.acquire` events. -/
def isAcquireE {V : Type} : Event V → Bool
  | .leaseAcquire _ _ => true
  | _ => false

/-- Recognizes `leases.release` events. -/
def isReleaseE {V : Type} : Event V → Bool
  | .leaseRelease _ => true
  | _ => false

/-- Recognizes `leases.markReady` events. -/
def isMarkReadyE {V : Type} : Event V → Bool
  | .leaseMarkReady => true
  | _ => false

/-- Recognizes `leases.isReady` events. -/
def isReadyProbeE {V : Type} : Event V → Bool
  | .leaseIsReady => true
  | _ => false

/-- Recognizes fetcher invocations. -/
def isFetchE {V : Type} : Event V → Bool
  | .fetchRun => true
  | _ => false

/-- Recognizes wait-strategy invocations. -/
def isStrategyE {V : Type} : Event V → Bool
  | .strategyRun _ => true
  | _ => false

/-- Recognizes poll-iteration markers. -/
def isPollStepE {V : Type} : Event V → Bool
  | .pollStep => true
  | _ => false

/-- Recognizes any lease-store operation (acquire, release, markReady,
isReady). -/
def isLeaseOpE {V : Type} : Event V → Bool
  | .leaseAcquire _ _ => true
  | .leaseRelease _ => true
  | .leaseMarkReady => true
  | .leaseIsReady => true
  | _ => false

/-- Recognizes the mutating operations a follower must never perform:
`cache.set`, `leases.release` and `leases.markReady`. -/
def isMutE {V : Type} : Event V → Bool
  | .cacheSet _ _ => true
  | .leaseRelease _ => true
  | .leaseMarkReady => true
  | _ => false

/-- Embeds the duration decoding used by `durationSchema`
(`validation.ts`) and `resolveOptionalDuration` (`defaults.ts`): the
effect library's `Duration` values are non-negative by construction, so a
finite negative millisecond input decodes to the zero duration. -/
def durationDecode (n : Int) : Nat := (max n 0).toNat

/-- Embeds `toMillisClamped` from the adapter utilities:
`Math.max(0, Duration.toMillis(duration))`, with the raw input given in
(possibly negative) milliseconds. -/
def toMillisClamped (n : Int) : Nat := (max 0 n).toNat

/-- Resolved per-call options (`types.ts` `ResolvedOptions`), durations
already decoded to non-negative milliseconds. -/
structure ResolvedOptions where
  leaseTtl : Nat
  waitMax : Nat
  waitStep : Nat
  cacheTtl : Option Nat
  ownerId : String
deriving DecidableEq, Repr

/-- Builds resolved options from raw (possibly negative) millisecond
inputs, as `parseCallOptionsEffect` / `resolveCallOptions` do via
`durationSchema` and `resolveOptionalDuration`. -/
def mkResolvedOptions (leaseTtl waitMax waitStep : Int) (cacheTtl : Option Int)
    (ownerId : String) : ResolvedOptions :=
  ⟨durationDecode leaseTtl, durationDecode waitMax, durationDecode waitStep,
   cacheTtl.map durationDecode, ownerId⟩

/-- Return value of a wait-strategy invocation before it is decoded by
`waitDelaySchema`: a finite number of milliseconds (negative values decode
to the zero duration), a non-finite duration, or a value that is not a
duration at all. -/
inductive DelayInput
  | millis (n : Int)
  | infinite
  | notDuration
deriving DecidableEq, Repr

/-- Embeds `decodeWith(waitDelaySchema, ...)` applied to the strategy's
return value: `durationSchema` accepts finite durations (clamping negative
millisecond numbers to zero) and rejects everything else with a
`VALIDATION_ERROR`. -/
def decodeWaitDelay : DelayInput → Except ErrTag Nat
  | .millis n => .ok (durationDecode n)
  | .infinite => .error .VALIDATION_ERROR
  | .notDuration => .error .VALIDATION_ERROR

/-- Oracle environment of one `getOrSet` call: the call's arguments and
resolved options together with the behaviour of every external
collaborator.  Indexed behaviours (`get`, `isReady`, `waitStrategy`) are
functions of the number of invocations of that operation so far. -/
structure Env (V : Type) where
  validateOptions : Bool
  keyRaw : String
  fetcherValid : Bool
  optsValid : Bool
  signal : Option Bool
  opts : ResolvedOptions
  get : Nat → Except Thrown (Option V)
  set : Except Thrown Unit
  acquire : Except Thrown LeaseAcquireResult
  release : Except Thrown Unit
  hasMarkReady : Bool
  markReady : Except Thrown Unit
  hasIsReady : Bool
  isReady : Nat → Except Thrown (Option LeaseReadyState)
  fetcher : Except Thrown V
  shouldCache : V → Bool
  hookBase : HookKind → Option (Except Thrown Unit)
  hookOver : HookKind → Option (Except Thrown Unit)
  waitStrategy : Nat → Except Thrown DelayInput

variable {V : Type}

/-- Embeds `CacheLockingRuntime.cacheGet`: one `cache.get` call through
the phase runner, wrapping raw failures as `CACHE_GET_FAILED`. -/
def cacheGetOp (env : Env V) (st : St V) : Except ErrTag (Option V) × St V :=
  (mapExc .CACHE_GET_FAILED (env.get (countE isCacheGetE st.trace)),
   ⟨st.trace ++ [Event.cacheGet], st.now⟩)

/-- Embeds `CacheLockingRuntime.cacheSet`: one `cache.set` call with the
resolved `cacheTtl`, wrapping raw failures as `CACHE_SET_FAILED`. -/
def cacheSetOp (env : Env V) (v : V) (st : St V) : Except ErrTag Unit × St V :=
  (mapExc .CACHE_SET_FAILED env.set,
   ⟨st.trace ++ [Event.cacheSet v env.opts.cacheTtl], st.now⟩)

/-- Embeds `CacheLockingRuntime.leaseAcquire` with the resolved `ownerId`
and `leaseTtl`, wrapping raw failures as `LEASE_ACQUIRE_FAILED`. -/
def leaseAcquireOp (env : Env V) (st : St V) : Except ErrTag LeaseAcquireResult × St V :=
  (mapExc .LEASE_ACQUIRE_FAILED env.acquire,
   ⟨st.trace ++ [Event.leaseAcquire env.opts.ownerId env.opts.leaseTtl], st.now⟩)

/-- Embeds `CacheLockingRuntime.leaseRelease`, wrapping raw failures as
`LEASE_RELEASE_FAILED`. -/
def leaseReleaseOp (env : Env V) (st : St V) : Except ErrTag Unit × St V :=
  (mapExc .LEASE_RELEASE_FAILED env.release,
   ⟨st.trace ++ [Event.leaseRelease env.opts.ownerId], st.now⟩)

/-- Embeds `CacheLockingRuntime.leaseMarkReady`: when the lease backend
does not support `markReady`, it is a silent no-op with no adapter call. -/
def leaseMarkReadyOp (env : Env V) (st : St V) : Except ErrTag Unit × St V :=
  if env.hasMarkReady then
    (mapExc .LEASE_READY_FAILED env.markReady,
     ⟨st.trace ++ [Event.leaseMarkReady], st.now⟩)
  else (.ok (), st)

/-- Embeds `CacheLockingRuntime.leaseIsReady`: when unsupported it returns
`Option.none` with no adapter call. -/
def leaseIsReadyOp (env : Env V) (st : St V) : Except ErrTag (Option LeaseReadyState) × St V :=
  if env.hasIsReady then
    (mapExc .LEASE_READY_FAILED (env.isReady (countE isReadyProbeE st.trace)),
     ⟨st.trace ++ [Event.leaseIsReady], st.now⟩)
  else (.ok none, st)

/-- Embeds `CacheLockingRuntime.fetchValue`, wrapping raw failures as
`FETCHER_FAILED`. -/
def fetchOp (env : Env V) (st : St V) : Except ErrTag V × St V :=
  (mapExc .FETCHER_FAILED env.fetcher,
   ⟨st.trace ++ [Event.fetchRun], st.now⟩)

/-- Embeds `CacheLockingRuntime.resolveWaitDelay`: one strategy invocation
through the phase runner (raw throws become `WAIT_STRATEGY_FAILED`),
followed by `decodeWith(waitDelaySchema, ...)` on its return value. -/
def strategyOp (env : Env V) (attempt : Nat) (st : St V) : Except ErrTag Nat × St V :=
  ((match env.waitStrategy attempt with
    | .error t => .error (mapThrown .WAIT_STRATEGY_FAILED t)
    | .ok d => decodeWaitDelay d),
   ⟨st.trace ++ [Event.strategyRun attempt], st.now⟩)

/-- Runs the per-call (override) hook of one event, when defined
(second half of the `HookRunner` methods). -/
def runHookOver (env : Env V) (k : HookKind) (st : St V) : Except ErrTag Unit × St V :=
  match env.hookOver k with
  | none => (.ok (), st)
  | some b =>
    (mapExc .HOOK_FAILED b, ⟨st.trace ++ [Event.hookRun k .override], st.now⟩)

/-- Embeds one `HookRunner` method as run through the phase runner: the
instance-default (base) hook runs first when defined; the per-call
(override) hook runs only after the base hook succeeded; the first raw
failure is wrapped as `HOOK_FAILED`. -/
def runHookPair (env : Env V) (k : HookKind) (st : St V) : Except ErrTag Unit × St V :=
  match env.hookBase k with
  | none => runHookOver env k st
  | some b =>
    match b with
    | .error t => (.error (mapThrown .HOOK_FAILED t), ⟨st.trace ++ [Event.hookRun k .base], st.now⟩)
    | .ok _ => runHookOver env k ⟨st.trace ++ [Event.hookRun k .base], st.now⟩

/-- Condition on the `isReady` result under which the poll loop stops
polling (`readyState.value.ready || readyState.value.expired`). -/
def readySignal : Option LeaseReadyState → Bool
  | some r => r.ready || r.expired
  | none => false

/-- Embeds the `poll` step and its retry schedule inside
`CacheLockingRuntime.waitForCache`.  Each iteration reads the cache, then
(optionally) the lease readiness, checks the remaining budget, asks the
wait strategy for a delay, bounds it by the remaining budget and sleeps.
The fuel models the real-time `Effect.timeoutFail` bound: running out of
fuel behaves like the caught `WAIT_TIMEOUT`, producing `none`. -/
def pollLoop (env : Env V) (start : Nat) : Nat → Nat → St V → Except ErrTag (Option V) × St V
  | _, 0, st => (.ok none, st)
  | attempt, fuel + 1, st =>
    let stS : St V := ⟨st.trace ++ [Event.pollStep], st.now⟩
    let st1 := (cacheGetOp env stS).2
    match (cacheGetOp env stS).1 with
    | .error e => (.error e, st1)
    | .ok (some v) => (.ok (some v), st1)
    | .ok none =>
      let st2 := (leaseIsReadyOp env st1).2
      match (leaseIsReadyOp env st1).1 with
      | .error e => (.error e, st2)
      | .ok rs =>
        if readySignal rs then (.ok none, st2)
        else
          let remaining := env.opts.waitMax - (st2.now - start)
          if remaining = 0 then (.ok none, st2)
          else
            let st3 := (strategyOp env attempt st2).2
            match (strategyOp env attempt st2).1 with
            | .error e => (.error e, st3)
            | .ok d =>
              let bounded := min d remaining
              pollLoop env start (attempt + 1) fuel
                ⟨st3.trace ++ [Event.sleep bounded], st3.now + bounded⟩

/-- Maps the final cache read's result to the wait outcome kind. -/
def wKind : Option V → WaitKind
  | some _ => .hit
  | none => .fallback

/-- Embeds `CacheLockingRuntime.waitForCache`: run the poll loop; when it
ends with a value, that is a `HIT` with no further cache read; when it
ends without one, perform one final cache read whose presence decides
`HIT` versus `FALLBACK`. -/
def waitForCache (env : Env V) (fuel : Nat) (st : St V) : Except ErrTag (WaitOutcome V) × St V :=
  let stP := (pollLoop env st.now 0 fuel st).2
  match (pollLoop env st.now 0 fuel st).1 with
  | .error e => (.error e, stP)
  | .ok (some v) => (.ok ⟨some v, stP.now - st.now, .hit⟩, stP)
  | .ok none =>
    let stF := (cacheGetOp env stP).2
    match (cacheGetOp env stP).1 with
    | .error e => (.error e, stF)
    | .ok r => (.ok ⟨r, stP.now - st.now, wKind r⟩, stF)

/-- Tail of `CacheLockingRuntime.runLeader` after the optional cache
write: `leases.markReady`, the `onLeader` hooks, then the result with
`buildMeta(outcome, lease.leaseUntil)`. -/
def leaderFinish (env : Env V) (lease : LeaseAcquireResult) (v : V) (outcome : CacheOutcome)
    (st : St V) : Except ErrTag (GetOrSetResult V) × St V :=
  let st1 := (leaseMarkReadyOp env st).2
  match (leaseMarkReadyOp env st).1 with
  | .error e => (.error e, st1)
  | .ok _ =>
    let st2 := (runHookPair env .onLeader st1).2
    match (runHookPair env .onLeader st1).1 with
    | .error e => (.error e, st2)
    | .ok _ => (.ok ⟨v, ⟨outcome, some lease.leaseUntil, none⟩⟩, st2)

/-- Embeds `CacheLockingRuntime.runLeader`: fetch, then `cache.set` iff
`shouldCache(value)` (outcome `MISS_LEADER`), else outcome
`MISS_LEADER_NOCACHE`; then markReady, the `onLeader` hooks and the
result. -/
def runLeader (env : Env V) (lease : LeaseAcquireResult) (st : St V) :
    Except ErrTag (GetOrSetResult V) × St V :=
  let st1 := (fetchOp env st).2
  match (fetchOp env st).1 with
  | .error e => (.error e, st1)
  | .ok v =>
    if env.shouldCache v then
      let st2 := (cacheSetOp env v st1).2
      match (cacheSetOp env v st1).1 with
      | .error e => (.error e, st2)
      | .ok _ => leaderFinish env lease v .MISS_LEADER st2
    else leaderFinish env lease v .MISS_LEADER_NOCACHE st1

/-- Embeds `CacheLockingRuntime.runLeaderWithRelease`: the scoped
`Effect.acquireRelease` runs `runLeader` and then, on every exit path,
attempts `leases.release` exactly once, discarding its outcome (all
cache-locking error tags are caught by `Effect.catchTags`). -/
def runLeaderWithRelease (env : Env V) (lease : LeaseAcquireResult) (st : St V) :
    Except ErrTag (GetOrSetResult V) × St V :=
  ((runLeader env lease st).1, (leaseReleaseOp env (runLeader env lease st).2).2)

/-- Embeds `CacheLockingRuntime.runFollower`: wait for the cache, fire the
`onFollowerWait` hooks, then either return the observed value
(`MISS_FOLLOWER_HIT`) or fetch directly and fire the `onFallback` hooks
(`MISS_FOLLOWER_FALLBACK`). -/
def runFollower (env : Env V) (lease : LeaseAcquireResult) (fuel : Nat) (st : St V) :
    Except ErrTag (GetOrSetResult V) × St V :=
  let stW := (waitForCache env fuel st).2
  match (waitForCache env fuel st).1 with
  | .error e => (.error e, stW)
  | .ok w =>
    let stH := (runHookPair env .onFollowerWait stW).2
    match (runHookPair env .onFollowerWait stW).1 with
    | .error e => (.error e, stH)
    | .ok _ =>
      match w.value with
      | some v => (.ok ⟨v, ⟨.MISS_FOLLOWER_HIT, some lease.leaseUntil, some w.waited⟩⟩, stH)
      | none =>
        let stF := (fetchOp env stH).2
        match (fetchOp env stH).1 with
        | .error e => (.error e, stF)
        | .ok v =>
          let stB := (runHookPair env .onFallback stF).2
          match (runHookPair env .onFallback stF).1 with
          | .error e => (.error e, stB)
          | .ok _ => (.ok ⟨v, ⟨.MISS_FOLLOWER_FALLBACK, some lease.leaseUntil, some w.waited⟩⟩, stB)

/-- Recognizes the characters removed by the JavaScript
`String.prototype.trim`: the ECMAScript WhiteSpace set (TAB, VT, FF, SP,
NBSP, ZWNBSP and the Unicode Zs space separators) together with the
LineTerminator set (LF, CR, LS, PS). -/
def isWS (c : Char) : Bool :=
  c = '\t' || c = '\n' || c = '\u000B' || c = '\u000C' || c = '\r' || c = ' ' ||
  c = '\u00A0' || c = '\u1680' || ('\u2000' ≤ c && c ≤ '\u200A') ||
  c = '\u2028' || c = '\u2029' || c = '\u202F' || c = '\u205F' || c = '\u3000' ||
  c = '\uFEFF'

/-- Embeds `nonEmptyStringSchema` applied to the key (`validation.ts`):
`value.trim().length > 0`, i.e. the key has at least one character that
JavaScript `trim` does not remove. -/
def keyAccepted (s : String) : Bool := s.data.any (fun c => !(isWS c))

/-- Embeds `validateGetOrSetArgsEffect` plus the call-options validation
of `createCallContextEffect`: when `validateOptions` is on, the key is
checked first, then the fetcher, then the per-call options; each failure
is a `VALIDATION_ERROR` raised before any I/O. -/
def validateArgs (env : Env V) : Except ErrTag Unit :=
  if env.validateOptions && !(keyAccepted env.keyRaw) then .error .VALIDATION_ERROR
  else if env.validateOptions && !env.fetcherValid then .error .VALIDATION_ERROR
  else if env.validateOptions && !env.optsValid then .error .VALIDATION_ERROR
  else .ok ()

/-- Embeds the `signal.aborted` pre-check of
`CacheLockingRuntime.withAbortSignal`: an absent signal never aborts. -/
def abortedAtStart (env : Env V) : Bool :=
  match env.signal with
  | some b => b
  | none => false

/-- Embeds the `flow` effect inside `getOrSetEffect`: cache probe; on a
hit, the `onHit` hooks and a `HIT` result with no lease interaction; on a
miss, lease acquisition and then the leader or follower branch. -/
def flow (env : Env V) (fuel : Nat) (st : St V) : Except ErrTag (GetOrSetResult V) × St V :=
  let st1 := (cacheGetOp env st).2
  match (cacheGetOp env st).1 with
  | .error e => (.error e, st1)
  | .ok (some v) =>
    let st2 := (runHookPair env .onHit st1).2
    match (runHookPair env .onHit st1).1 with
    | .error e => (.error e, st2)
    | .ok _ => (.ok ⟨v, ⟨.HIT, none, none⟩⟩, st2)
  | .ok none =>
    let st2 := (leaseAcquireOp env st1).2
    match (leaseAcquireOp env st1).1 with
    | .error e => (.error e, st2)
    | .ok lease =>
      match lease.role with
      | .leader => runLeaderWithRelease env lease st2
      | .follower => runFollower env lease fuel st2

/-- Embeds `CacheLockingRuntime.getOrSetEffect`: validation first, then
the already-aborted signal check of `withAbortSignal`, then the flow. -/
def getOrSet (env : Env V) (fuel : Nat) (st : St V) : Except ErrTag (GetOrSetResult V) × St V :=
  match validateArgs env with
  | .error e => (.error e, st)
  | .ok _ => if abortedAtStart env then (.error .ABORTED, st) else flow env fuel st

/-- Concrete single-caller leader environment: empty cache, leader lease,
fetcher returning 42, cache accepted, no optional lease capabilities, no
hooks (scenario S1 of the specification). -/
def envLeaderW : Env Nat :=
  { validateOptions := true, keyRaw := "k", fetcherValid := true, optsValid := true,
    signal := none,
    opts := ⟨1000, 200, 10, some 5000, "o1"⟩,
    get := fun _ => .ok none,
    set := .ok (),
    acquire := .ok ⟨.leader, 100⟩,
    release := .ok (),
    hasMarkReady := false, markReady := .ok (),
    hasIsReady := false, isReady := fun _ => .ok none,
    fetcher := .ok 42,
    shouldCache := fun _ => true,
    hookBase := fun _ => none, hookOver := fun _ => none,
    waitStrategy := fun _ => .ok (.millis 10) }

/-- Concrete follower environment: empty cache, follower lease, the lease
backend reports `ready`, so the wait loop exits after one iteration and
the follower falls back to its own fetch. -/
def envFollowerW : Env Nat :=
  { envLeaderW with
    opts := ⟨1000, 200, 10, some 5000, "o2"⟩,
    acquire := .ok ⟨.follower, 50⟩,
    hasIsReady := true,
    isReady := fun _ => .ok (some ⟨true, false⟩),
    fetcher := .ok 9 }

/-- Concrete hit-path environment: the cache probe returns 7 and both
`onHit` hooks are defined and succeed. -/
def envHitW : Env Nat :=
  { envLeaderW with
    get := fun _ => .ok (some 7),
    hookBase := fun _ => some (.ok ()),
    hookOver := fun _ => some (.ok ()) }

/-- Environment whose first poll iteration observes a cached value: the
wait loop exits with a hit. -/
def envC5x : Env Nat := { envFollowerW with get := fun _ => .ok (some 7) }

/-- Follower environment with no readiness support whose wait strategy
throws a raw (untagged) error on its first invocation. -/
def envC8w : Env Nat :=
  { envFollowerW with hasIsReady := false, waitStrategy := fun _ => .error (.raw 3) }

/-- Follower environment with no readiness support whose wait strategy
returns a value that is not a duration. -/
def envC8x : Env Nat :=
  { envFollowerW with hasIsReady := false, waitStrategy := fun _ => .ok .notDuration }

/-- Environment whose key is the non-empty string of one space character
(rejected by the trim-based key validation). -/
def envC7x : Env Nat := { envLeaderW with keyRaw := " " }

/-- Environment with an empty key and an already-aborted signal:
validation runs before the abort pre-check. -/
def envC9x : Env Nat := { envLeaderW with keyRaw := "", signal := some true }

/-- Environment with a valid key and an already-aborted signal. -/
def envC9w : Env Nat := { envLeaderW with signal := some true }

/-- Hit-path environment whose instance-default `onHit` hook fails with
an already-tagged cache-locking error (`CACHE_SET_FAILED`). -/
def envC10x : Env Nat :=
  { envHitW with hookBase := fun _ => some (.error (.tagged .CACHE_SET_FAILED)) }

/-- Holds when an optional hook behaviour, if defined, does not fail. -/
def hookSlotOk : Option (Except Thrown Unit) → Bool
  | some (.error _) => false
  | _ => true

/-! Counting and trace lemmas. -/

theorem countE_nil (p : Event V → Bool) : countE p [] = 0 := rfl

theorem countE_snoc (p : Event V → Bool) (l : List (Event V)) (e : Event V) :
    countE p (l ++ [e]) = countE p l + (if p e then 1 else 0) := by
  simp [countE, List.countP_append, List.countP_cons, List.countP_nil]

theorem countE_append (p : Event V → Bool) (l1 l2 : List (Event V)) :
    countE p (l1 ++ l2) = countE p l1 + countE p l2 := by
  simp [countE, List.countP_append]

theorem cacheGetOp_snd (env : Env V) (st : St V) :
    (cacheGetOp env st).2 = ⟨st.trace ++ [Event.cacheGet], st.now⟩ := rfl

theorem cacheSetOp_snd (env : Env V) (v : V) (st : St V) :
    (cacheSetOp env v st).2 = ⟨st.trace ++ [Event.cacheSet v env.opts.cacheTtl], st.now⟩ := rfl

theorem leaseAcquireOp_snd (env : Env V) (st : St V) :
    (leaseAcquireOp env st).2 =
      ⟨st.trace ++ [Event.leaseAcquire env.opts.ownerId env.opts.leaseTtl], st.now⟩ := rfl

theorem leaseReleaseOp_snd (env : Env V) (st : St V) :
    (leaseReleaseOp env st).2 = ⟨st.trace ++ [Event.leaseRelease env.opts.ownerId], st.now⟩ := rfl

theorem fetchOp_snd (env : Env V) (st : St V) :
    (fetchOp env st).2 = ⟨st.trace ++ [Event.fetchRun], st.now⟩ := rfl

theorem strategyOp_snd (env : Env V) (attempt : Nat) (st : St V) :
    (strategyOp env attempt st).2 = ⟨st.trace ++ [Event.strategyRun attempt], st.now⟩ := rfl

theorem countE_markReadyOp (p : Event V → Bool) (hmr : p Event.leaseMarkReady = false)
    (env : Env V) (st : St V) :
    countE p (leaseMarkReadyOp env st).2.trace = countE p st.trace := by
  unfold leaseMarkReadyOp
  split
  · simp [countE_snoc, hmr]
  · rfl

theorem countE_isReadyOp (p : Event V → Bool) (hir : p Event.leaseIsReady = false)
    (env : Env V) (st : St V) :
    countE p (leaseIsReadyOp env st).2.trace = countE p st.trace := by
  unfold leaseIsReadyOp
  split
  · simp [countE_snoc, hir]
  · rfl

theorem countE_runHookOver (p : Event V → Bool)
    (hh : ∀ k s, p (Event.hookRun k s) = false)
    (env : Env V) (k : HookKind) (st : St V) :
    countE p (runHookOver env k st).2.trace = countE p st.trace := by
  unfold runHookOver
  split
  · rfl
  · simp [countE_snoc, hh]

theorem countE_runHookPair (p : Event V → Bool)
    (hh : ∀ k s, p (Event.hookRun k s) = false)
    (env : Env V) (k : HookKind) (st : St V) :
    countE p (runHookPair env k st).2.trace = countE p st.trace := by
  unfold runHookPair
  split
  · exact countE_runHookOver p hh env k st
  · split
    · simp [countE_snoc, hh]
    · rw [countE_runHookOver p hh]
      simp [countE_snoc, hh]

theorem countE_leaderFinish (p : Event V → Bool)
    (hmr : p Event.leaseMarkReady = false)
    (hh : ∀ k s, p (Event.hookRun k s) = false)
    (env : Env V) (lease : LeaseAcquireResult) (v : V) (o : CacheOutcome) (st : St V) :
    countE p (leaderFinish env lease v o st).2.trace = countE p st.trace := by
  cases h1 : (leaseMarkReadyOp env st).1 with
  | error e =>
    simp only [leaderFinish, h1]
    exact countE_markReadyOp p hmr env st
  | ok u =>
    cases h2 : (runHookPair env .onLeader (leaseMarkReadyOp env st).2).1 with
    | error e =>
      simp only [leaderFinish, h1, h2]
      rw [countE_runHookPair p hh, countE_markReadyOp p hmr]
    | ok u2 =>
      simp only [leaderFinish, h1, h2]
      rw [countE_runHookPair p hh, countE_markReadyOp p hmr]

theorem countE_runLeader (p : Event V → Bool)
    (hf : p Event.fetchRun = false)
    (hset : ∀ (v : V) t, p (Event.cacheSet v t) = false)
    (hmr : p Event.leaseMarkReady = false)
    (hh : ∀ k s, p (Event.hookRun k s) = false)
    (env : Env V) (lease : LeaseAcquireResult) (st : St V) :
    countE p (runLeader env lease st).2.trace = countE p st.trace := by
  cases h1 : (fetchOp env st).1 with
  | error e =>
    simp only [runLeader, h1, fetchOp_snd]
    simp [countE_snoc, hf]
  | ok v =>
    cases hsc : env.shouldCache v with
    | false =>
      simp only [runLeader, h1, hsc, Bool.false_eq_true, if_false]
      rw [countE_leaderFinish p hmr hh, fetchOp_snd]
      simp [countE_snoc, hf]
    | true =>
      cases h2 : (cacheSetOp env v (fetchOp env st).2).1 with
      | error e =>
        simp only [runLeader, h1, hsc, if_true, h2]
        rw [cacheSetOp_snd]
        simp only [St.trace]
        rw [countE_snoc, fetchOp_snd]
        simp [countE_snoc, hf, hset]
      | ok u =>
        simp only [runLeader, h1, hsc, if_true, h2]
        rw [countE_leaderFinish p hmr hh, cacheSetOp_snd]
        simp only [St.trace]
        rw [countE_snoc, fetchOp_snd]
        simp [countE_snoc, hf, hset]

theorem countE_pollLoop (p : Event V → Bool)
    (hps : p Event.pollStep = false)
    (hg : p Event.cacheGet = false)
    (hir : p Event.leaseIsReady = false)
    (hstr : ∀ n, p (Event.strategyRun n) = false)
    (hsl : ∀ d, p (Event.sleep d) = false)
    (env : Env V) (start : Nat) :
    ∀ fuel attempt st,
      countE p (pollLoop env start attempt fuel st).2.trace = countE p st.trace := by
  intro fuel
  induction fuel with
  | zero => intro attempt st; rfl
  | succ n ih =>
    intro attempt st
    rw [pollLoop]
    cases h1 : (cacheGetOp env ⟨st.trace ++ [Event.pollStep], st.now⟩).1 with
    | error e =>
      simp only [h1, cacheGetOp_snd]
      simp [countE, List.countP_append, List.countP_cons, hps, hg]
    | ok o =>
      cases o with
      | some v =>
        simp only [h1, cacheGetOp_snd]
        simp [countE, List.countP_append, List.countP_cons, hps, hg]
      | none =>
        simp only [h1]
        cases h2 : (leaseIsReadyOp env (cacheGetOp env ⟨st.trace ++ [Event.pollStep], st.now⟩).2).1 with
        | error e =>
          simp only [h2]
          rw [countE_isReadyOp p hir, cacheGetOp_snd]
          simp [countE, List.countP_append, List.countP_cons, hps, hg]
        | ok rs =>
          simp only [h2]
          split
          · rw [countE_isReadyOp p hir, cacheGetOp_snd]
            simp [countE, List.countP_append, List.countP_cons, hps, hg]
          · split
            · rw [countE_isReadyOp p hir, cacheGetOp_snd]
              simp [countE, List.countP_append, List.countP_cons, hps, hg]
            · cases h3 : (strategyOp env attempt
                  (leaseIsReadyOp env (cacheGetOp env ⟨st.trace ++ [Event.pollStep], st.now⟩).2).2).1 with
              | error e =>
                simp only [h3, strategyOp_snd]
                rw [countE_snoc, countE_isReadyOp p hir, cacheGetOp_snd]
                simp [countE, List.countP_append, List.countP_cons, hps, hg, hstr]
              | ok d =>
                simp only [h3]
                rw [ih]
                simp only [St.trace]
                rw [countE_snoc, strategyOp_snd]
                simp only [St.trace]
                rw [countE_snoc, countE_isReadyOp p hir, cacheGetOp_snd]
                simp [countE, List.countP_append, List.countP_cons, hps, hg, hstr, hsl]

theorem countE_waitForCache (p : Event V → Bool)
    (hps : p Event.pollStep = false)
    (hg : p Event.cacheGet = false)
    (hir : p Event.leaseIsReady = false)
    (hstr : ∀ n, p (Event.strategyRun n) = false)
    (hsl : ∀ d, p (Event.sleep d) = false)
    (env : Env V) (fuel : Nat) (st : St V) :
    countE p (waitForCache env fuel st).2.trace = countE p st.trace := by
  cases h1 : (pollLoop env st.now 0 fuel st).1 with
  | error e =>
    simp only [waitForCache, h1]
    exact countE_pollLoop p hps hg hir hstr hsl env st.now fuel 0 st
  | ok o =>
    cases o with
    | some v =>
      simp only [waitForCache, h1]
      exact countE_pollLoop p hps hg hir hstr hsl env st.now fuel 0 st
    | none =>
      cases h2 : (cacheGetOp env (pollLoop env st.now 0 fuel st).2).1 with
      | error e =>
        simp only [waitForCache, h1, h2, cacheGetOp_snd]
        rw [countE_snoc, countE_pollLoop p hps hg hir hstr hsl env st.now fuel 0 st]
        simp [hg]
      | ok r =>
        simp only [waitForCache, h1, h2, cacheGetOp_snd]
        rw [countE_snoc, countE_pollLoop p hps hg hir hstr hsl env st.now fuel 0 st]
        simp [hg]

theorem countE_runFollower (p : Event V → Bool)
    (hps : p Event.pollStep = false)
    (hg : p Event.cacheGet = false)
    (hir : p Event.leaseIsReady = false)
    (hstr : ∀ n, p (Event.strategyRun n) = false)
    (hsl : ∀ d, p (Event.sleep d) = false)
    (hh : ∀ k s, p (Event.hookRun k s) = false)
    (hf : p Event.fetchRun = false)
    (env : Env V) (lease : LeaseAcquireResult) (fuel : Nat) (st : St V) :
    countE p (runFollower env lease fuel st).2.trace = countE p st.trace := by
  have hw := countE_waitForCache p hps hg hir hstr hsl env fuel st
  cases h1 : (waitForCache env fuel st).1 with
  | error e => simp only [runFollower, h1]; exact hw
  | ok w =>
    cases h2 : (runHookPair env .onFollowerWait (waitForCache env fuel st).2).1 with
    | error e =>
      simp only [runFollower, h1, h2]
      rw [countE_runHookPair p hh]; exact hw
    | ok u =>
      cases hv : w.value with
      | some v =>
        simp only [runFollower, h1, h2, hv]
        rw [countE_runHookPair p hh]; exact hw
      | none =>
        cases h3 : (fetchOp env (runHookPair env .onFollowerWait (waitForCache env fuel st).2).2).1 with
        | error e =>
          simp only [runFollower, h1, h2, hv, h3, fetchOp_snd]
          rw [countE_snoc, countE_runHookPair p hh, hw]
          simp [hf]
        | ok v =>
          cases h4 : (runHookPair env .onFallback
              (fetchOp env (runHookPair env .onFollowerWait (waitForCache env fuel st).2).2).2).1 with
          | error e =>
            simp only [runFollower, h1, h2, hv, h3, h4]
            rw [countE_runHookPair p hh, fetchOp_snd]
            simp only [St.trace]
            rw [countE_snoc, countE_runHookPair p hh, hw]
            simp [hf]
          | ok u2 =>
            simp only [runFollower, h1, h2, hv, h3, h4]
            rw [countE_runHookPair p hh, fetchOp_snd]
            simp only [St.trace]
            rw [countE_snoc, countE_runHookPair p hh, hw]
            simp [hf]

theorem runLeaderWithRelease_fst (env : Env V) (lease : LeaseAcquireResult) (st : St V) :
    (runLeaderWithRelease env lease st).1 = (runLeader env lease st).1 := rfl

theorem runLeaderWithRelease_snd (env : Env V) (lease : LeaseAcquireResult) (st : St V) :
    (runLeaderWithRelease env lease st).2 =
      ⟨(runLeader env lease st).2.trace ++ [Event.leaseRelease env.opts.ownerId],
       (runLeader env lease st).2.now⟩ := rfl

theorem leaseIsReadyOp_not (env : Env V) (st : St V) (hir : env.hasIsReady = false) :
    leaseIsReadyOp env st = (.ok none, st) := by
  simp [leaseIsReadyOp, hir]

theorem runHookOver_ok_of (env : Env V) (k : HookKind) (st : St V)
    (ho : hookSlotOk (env.hookOver k) = true) :
    (runHookOver env k st).1 = .ok () := by
  cases hO : env.hookOver k with
  | none => simp [runHookOver, hO]
  | some b =>
    cases b with
    | ok u => simp [runHookOver, hO, mapExc]
    | error t => rw [hO] at ho; simp [hookSlotOk] at ho

theorem runHookPair_ok_of (env : Env V) (k : HookKind) (st : St V)
    (hb : hookSlotOk (env.hookBase k) = true) (ho : hookSlotOk (env.hookOver k) = true) :
    (runHookPair env k st).1 = .ok () := by
  cases hB : env.hookBase k with
  | none =>
    simp only [runHookPair, hB]
    exact runHookOver_ok_of env k st ho
  | some b =>
    cases b with
    | ok u =>
      simp only [runHookPair, hB]
      exact runHookOver_ok_of env k _ ho
    | error t => rw [hB] at hb; simp [hookSlotOk] at hb

/-! Trace-extension lemmas: each runtime step only appends to the trace. -/

theorem ext_trans {st1 st2 st3 : St V}
    (h1 : ∃ d, st2.trace = st1.trace ++ d) (h2 : ∃ d, st3.trace = st2.trace ++ d) :
    ∃ d, st3.trace = st1.trace ++ d := by
  obtain ⟨a, ha⟩ := h1
  obtain ⟨b, hb⟩ := h2
  exact ⟨a ++ b, by rw [hb, ha, List.append_assoc]⟩

theorem ext_markReadyOp (env : Env V) (st : St V) :
    ∃ d, (leaseMarkReadyOp env st).2.trace = st.trace ++ d := by
  unfold leaseMarkReadyOp
  split
  · exact ⟨[Event.leaseMarkReady], rfl⟩
  · exact ⟨[], by simp⟩

theorem ext_isReadyOp (env : Env V) (st : St V) :
    ∃ d, (leaseIsReadyOp env st).2.trace = st.trace ++ d := by
  unfold leaseIsReadyOp
  split
  · exact ⟨[Event.leaseIsReady], rfl⟩
  · exact ⟨[], by simp⟩

theorem ext_runHookOver (env : Env V) (k : HookKind) (st : St V) :
    ∃ d, (runHookOver env k st).2.trace = st.trace ++ d := by
  unfold runHookOver
  split
  · exact ⟨[], by simp⟩
  · exact ⟨[Event.hookRun k .override], rfl⟩

theorem ext_runHookPair (env : Env V) (k : HookKind) (st : St V) :
    ∃ d, (runHookPair env k st).2.trace = st.trace ++ d := by
  cases hB : env.hookBase k with
  | none =>
    simp only [runHookPair, hB]
    exact ext_runHookOver env k st
  | some b =>
    cases b with
    | error t => exact ⟨[Event.hookRun k .base], by simp only [runHookPair, hB]⟩
    | ok u =>
      simp only [runHookPair, hB]
      exact ext_trans ⟨[Event.hookRun k .base], rfl⟩
        (ext_runHookOver env k ⟨st.trace ++ [Event.hookRun k .base], st.now⟩)

theorem ext_leaderFinish (env : Env V) (lease : LeaseAcquireResult) (v : V) (o : CacheOutcome)
    (st : St V) : ∃ d, (leaderFinish env lease v o st).2.trace = st.trace ++ d := by
  cases h1 : (leaseMarkReadyOp env st).1 with
  | error e =>
    simp only [leaderFinish, h1]
    exact ext_markReadyOp env st
  | ok u =>
    cases h2 : (runHookPair env .onLeader (leaseMarkReadyOp env st).2).1 with
    | error e =>
      simp only [leaderFinish, h1, h2]
      exact ext_trans (ext_markReadyOp env st) (ext_runHookPair env .onLeader _)
    | ok u2 =>
      simp only [leaderFinish, h1, h2]
      exact ext_trans (ext_markReadyOp env st) (ext_runHookPair env .onLeader _)

theorem ext_runLeader (env : Env V) (lease : LeaseAcquireResult) (st : St V) :
    ∃ d, (runLeader env lease st).2.trace = st.trace ++ d := by
  have hfe : ∃ d, (fetchOp env st).2.trace = st.trace ++ d := ⟨[Event.fetchRun], rfl⟩
  cases h1 : (fetchOp env st).1 with
  | error e =>
    simp only [runLeader, h1]
    exact hfe
  | ok v =>
    cases hsc : env.shouldCache v with
    | false =>
      simp only [runLeader, h1, hsc, Bool.false_eq_true, if_false]
      exact ext_trans hfe (ext_leaderFinish env lease v .MISS_LEADER_NOCACHE _)
    | true =>
      have hse : ∃ d, (cacheSetOp env v (fetchOp env st).2).2.trace = (fetchOp env st).2.trace ++ d :=
        ⟨[Event.cacheSet v env.opts.cacheTtl], rfl⟩
      cases h2 : (cacheSetOp env v (fetchOp env st).2).1 with
      | error e =>
        simp only [runLeader, h1, hsc, if_true, h2]
        exact ext_trans hfe hse
      | ok u =>
        simp only [runLeader, h1, hsc, if_true, h2]
        exact ext_trans (ext_trans hfe hse) (ext_leaderFinish env lease v .MISS_LEADER _)

theorem ext_runLeaderWithRelease (env : Env V) (lease : LeaseAcquireResult) (st : St V) :
    ∃ d, (runLeaderWithRelease env lease st).2.trace = st.trace ++ d := by
  rw [runLeaderWithRelease_snd]
  exact ext_trans (ext_runLeader env lease st)
    ⟨[Event.leaseRelease env.opts.ownerId], rfl⟩

theorem ext_pollLoop (env : Env V) (start : Nat) :
    ∀ fuel attempt st, ∃ d, (pollLoop env start attempt fuel st).2.trace = st.trace ++ d := by
  intro fuel
  induction fuel with
  | zero => intro attempt st; exact ⟨[], by simp [pollLoop]⟩
  | succ n ih =>
    intro attempt st
    rw [pollLoop]
    have hge : ∃ d, (cacheGetOp env ⟨st.trace ++ [Event.pollStep], st.now⟩).2.trace = st.trace ++ d :=
      ⟨[Event.pollStep, Event.cacheGet], by simp [cacheGetOp_snd]⟩
    cases h1 : (cacheGetOp env ⟨st.trace ++ [Event.pollStep], st.now⟩).1 with
    | error e => simpa only [h1] using hge
    | ok o =>
      cases o with
      | some v => simpa only [h1] using hge
      | none =>
        simp only [h1]
        have hire : ∃ d,
            (leaseIsReadyOp env (cacheGetOp env ⟨st.trace ++ [Event.pollStep], st.now⟩).2).2.trace =
              st.trace ++ d :=
          ext_trans hge (ext_isReadyOp env _)
        cases h2 : (leaseIsReadyOp env (cacheGetOp env ⟨st.trace ++ [Event.pollStep], st.now⟩).2).1 with
        | error e => simpa only [h2] using hire
        | ok rs =>
          simp only [h2]
          split
          · exact hire
          · split
            · exact hire
            · have hste : ∃ d, (strategyOp env attempt
                  (leaseIsReadyOp env (cacheGetOp env ⟨st.trace ++ [Event.pollStep], st.now⟩).2).2).2.trace =
                    st.trace ++ d :=
                ext_trans hire ⟨[Event.strategyRun attempt], rfl⟩
              cases h3 : (strategyOp env attempt
                  (leaseIsReadyOp env (cacheGetOp env ⟨st.trace ++ [Event.pollStep], st.now⟩).2).2).1 with
              | error e => simpa only [h3] using hste
              | ok d =>
                simp only [h3]
                refine @ext_trans V st ⟨(strategyOp env attempt
                  (leaseIsReadyOp env (cacheGetOp env ⟨st.trace ++ [Event.pollStep], st.now⟩).2).2).2.trace ++
                    [Event.sleep (min d (env.opts.waitMax -
                      ((leaseIsReadyOp env (cacheGetOp env ⟨st.trace ++ [Event.pollStep], st.now⟩).2).2.now - start)))],
                  (strategyOp env attempt
                    (leaseIsReadyOp env (cacheGetOp env ⟨st.trace ++ [Event.pollStep], st.now⟩).2).2).2.now +
                    min d (env.opts.waitMax -
                      ((leaseIsReadyOp env (cacheGetOp env ⟨st.trace ++ [Event.pollStep], st.now⟩).2).2.now - start))⟩
                  _ (ext_trans hste ⟨[Event.sleep _], rfl⟩) (ih _ _)

theorem ext_waitForCache (env : Env V) (fuel : Nat) (st : St V) :
    ∃ d, (waitForCache env fuel st).2.trace = st.trace ++ d := by
  have hpe := ext_pollLoop env st.now fuel 0 st
  cases h1 : (pollLoop env st.now 0 fuel st).1 with
  | error e => simpa only [waitForCache, h1] using hpe
  | ok o =>
    cases o with
    | some v => simpa only [waitForCache, h1] using hpe
    | none =>
      have hfe : ∃ d, (cacheGetOp env (pollLoop env st.now 0 fuel st).2).2.trace = st.trace ++ d :=
        ext_trans hpe ⟨[Event.cacheGet], rfl⟩
      cases h2 : (cacheGetOp env (pollLoop env st.now 0 fuel st).2).1 with
      | error e => simpa only [waitForCache, h1, h2] using hfe
      | ok r => simpa only [waitForCache, h1, h2] using hfe

theorem ext_runFollower (env : Env V) (lease : LeaseAcquireResult) (fuel : Nat) (st : St V) :
    ∃ d, (runFollower env lease fuel st).2.trace = st.trace ++ d := by
  have hw := ext_waitForCache env fuel st
  cases h1 : (waitForCache env fuel st).1 with
  | error e => simpa only [runFollower, h1] using hw
  | ok w =>
    have hh : ∃ d, (runHookPair env .onFollowerWait (waitForCache env fuel st).2).2.trace =
        st.trace ++ d :=
      ext_trans hw (ext_runHookPair env .onFollowerWait _)
    cases h2 : (runHookPair env .onFollowerWait (waitForCache env fuel st).2).1 with
    | error e => simpa only [runFollower, h1, h2] using hh
    | ok u =>
      cases hv : w.value with
      | some v => simpa only [runFollower, h1, h2, hv] using hh
      | none =>
        have hfe : ∃ d,
            (fetchOp env (runHookPair env .onFollowerWait (waitForCache env fuel st).2).2).2.trace =
              st.trace ++ d :=
          ext_trans hh ⟨[Event.fetchRun], rfl⟩
        cases h3 : (fetchOp env (runHookPair env .onFollowerWait (waitForCache env fuel st).2).2).1 with
        | error e => simpa only [runFollower, h1, h2, hv, h3] using hfe
        | ok v =>
          have hb : ∃ d, (runHookPair env .onFallback
              (fetchOp env (runHookPair env .onFollowerWait (waitForCache env fuel st).2).2).2).2.trace =
                st.trace ++ d :=
            ext_trans hfe (ext_runHookPair env .onFallback _)
          cases h4 : (runHookPair env .onFallback
              (fetchOp env (runHookPair env .onFollowerWait (waitForCache env fuel st).2).2).2).1 with
          | error e => simpa only [runFollower, h1, h2, hv, h3, h4] using hb
          | ok u2 => simpa only [runFollower, h1, h2, hv, h3, h4] using hb

/-! Result-shape lemmas for successful leader and follower branches. -/

theorem leaderFinish_ok (env : Env V) (lease : LeaseAcquireResult) (v : V) (o : CacheOutcome)
    (st : St V) (res : GetOrSetResult V)
    (h : (leaderFinish env lease v o st).1 = .ok res) :
    res = ⟨v, ⟨o, some lease.leaseUntil, none⟩⟩ := by
  cases h1 : (leaseMarkReadyOp env st).1 with
  | error e =>
    simp only [leaderFinish, h1] at h
    exact Except.noConfusion h
  | ok u =>
    cases h2 : (runHookPair env .onLeader (leaseMarkReadyOp env st).2).1 with
    | error e =>
      simp only [leaderFinish, h1, h2] at h
      exact Except.noConfusion h
    | ok u2 =>
      simp only [leaderFinish, h1, h2] at h
      injection h with h
      exact h.symm

theorem runLeader_ok (env : Env V) (lease : LeaseAcquireResult) (st : St V)
    (res : GetOrSetResult V) (h : (runLeader env lease st).1 = .ok res) :
    res.meta.leaseUntil = some lease.leaseUntil ∧ res.meta.waited = none ∧
      (res.meta.cache = .MISS_LEADER ∨ res.meta.cache = .MISS_LEADER_NOCACHE) := by
  cases h1 : (fetchOp env st).1 with
  | error e =>
    simp only [runLeader, h1] at h
    exact Except.noConfusion h
  | ok v =>
    cases hsc : env.shouldCache v with
    | true =>
      cases h2 : (cacheSetOp env v (fetchOp env st).2).1 with
      | error e =>
        simp only [runLeader, h1, hsc, if_true, h2] at h
        exact Except.noConfusion h
      | ok u =>
        simp only [runLeader, h1, hsc, if_true, h2] at h
        have hres := leaderFinish_ok env lease v .MISS_LEADER _ res h
        subst hres
        exact ⟨rfl, rfl, Or.inl rfl⟩
    | false =>
      simp only [runLeader, h1, hsc, Bool.false_eq_true, if_false] at h
      have hres := leaderFinish_ok env lease v .MISS_LEADER_NOCACHE _ res h
      subst hres
      exact ⟨rfl, rfl, Or.inr rfl⟩

theorem runFollower_ok (env : Env V) (lease : LeaseAcquireResult) (fuel : Nat) (st : St V)
    (res : GetOrSetResult V) (h : (runFollower env lease fuel st).1 = .ok res) :
    res.meta.leaseUntil = some lease.leaseUntil ∧ (∃ w, res.meta.waited = some w) ∧
      (res.meta.cache = .MISS_FOLLOWER_HIT ∨ res.meta.cache = .MISS_FOLLOWER_FALLBACK) := by
  cases h1 : (waitForCache env fuel st).1 with
  | error e =>
    simp only [runFollower, h1] at h
    exact Except.noConfusion h
  | ok w =>
    cases h2 : (runHookPair env .onFollowerWait (waitForCache env fuel st).2).1 with
    | error e =>
      simp only [runFollower, h1, h2] at h
      exact Except.noConfusion h
    | ok u =>
      cases hv : w.value with
      | some v =>
        simp only [runFollower, h1, h2, hv] at h
        injection h with h
        subst h
        exact ⟨rfl, ⟨w.waited, rfl⟩, Or.inl rfl⟩
      | none =>
        cases h3 : (fetchOp env (runHookPair env .onFollowerWait (waitForCache env fuel st).2).2).1 with
        | error e =>
          simp only [runFollower, h1, h2, hv, h3] at h
          exact Except.noConfusion h
        | ok v =>
          cases h4 : (runHookPair env .onFallback
              (fetchOp env (runHookPair env .onFollowerWait (waitForCache env fuel st).2).2).2).1 with
          | error e =>
            simp only [runFollower, h1, h2, hv, h3, h4] at h
            exact Except.noConfusion h
          | ok u2 =>
            simp only [runFollower, h1, h2, hv, h3, h4] at h
            injection h with h
            subst h
            exact ⟨rfl, ⟨w.waited, rfl⟩, Or.inr rfl⟩

/-! Step lemmas reducing `getOrSet` under path hypotheses. -/

theorem getOrSet_flow_eq (env : Env V) (fuel : Nat) (st : St V)
    (hval : validateArgs env = .ok ()) (hab : abortedAtStart env = false) :
    getOrSet env fuel st = flow env fuel st := by
  simp [getOrSet, hval, hab]

theorem getOrSet_leader_eq (env : Env V) (fuel : Nat) (u : Nat)
    (hval : validateArgs env = .ok ()) (hab : abortedAtStart env = false)
    (hget : env.get 0 = .ok none) (hacq : env.acquire = .ok ⟨.leader, u⟩) :
    getOrSet env fuel st0 = runLeaderWithRelease env ⟨.leader, u⟩
      ⟨[Event.cacheGet, Event.leaseAcquire env.opts.ownerId env.opts.leaseTtl], 0⟩ := by
  have hc : (cacheGetOp env (st0 : St V)).1 = .ok none := by
    show mapExc .CACHE_GET_FAILED (env.get 0) = .ok none
    rw [hget]; rfl
  have ha : (leaseAcquireOp env (cacheGetOp env (st0 : St V)).2).1 = .ok ⟨.leader, u⟩ := by
    show mapExc .LEASE_ACQUIRE_FAILED env.acquire = .ok ⟨.leader, u⟩
    rw [hacq]; rfl
  simp only [getOrSet, hval, hab, Bool.false_eq_true, if_false, flow, hc, ha]
  rfl

theorem getOrSet_follower_eq (env : Env V) (fuel : Nat) (u : Nat)
    (hval : validateArgs env = .ok ()) (hab : abortedAtStart env = false)
    (hget : env.get 0 = .ok none) (hacq : env.acquire = .ok ⟨.follower, u⟩) :
    getOrSet env fuel st0 = runFollower env ⟨.follower, u⟩ fuel
      ⟨[Event.cacheGet, Event.leaseAcquire env.opts.ownerId env.opts.leaseTtl], 0⟩ := by
  have hc : (cacheGetOp env (st0 : St V)).1 = .ok none := by
    show mapExc .CACHE_GET_FAILED (env.get 0) = .ok none
    rw [hget]; rfl
  have ha : (leaseAcquireOp env (cacheGetOp env (st0 : St V)).2).1 = .ok ⟨.follower, u⟩ := by
    show mapExc .LEASE_ACQUIRE_FAILED env.acquire = .ok ⟨.follower, u⟩
    rw [hacq]; rfl
  simp only [getOrSet, hval, hab, Bool.false_eq_true, if_false, flow, hc, ha]
  rfl

theorem getOrSet_hit_eq (env : Env V) (fuel : Nat) (v : V)
    (hval : validateArgs env = .ok ()) (hab : abortedAtStart env = false)
    (hget : env.get 0 = .ok (some v)) :
    getOrSet env fuel st0 =
      ((match (runHookPair env .onHit ⟨[Event.cacheGet], 0⟩).1 with
        | .error e => .error e
        | .ok _ => .ok ⟨v, ⟨.HIT, none, none⟩⟩),
       (runHookPair env .onHit ⟨[Event.cacheGet], 0⟩).2) := by
  have hc : (cacheGetOp env (st0 : St V)).1 = .ok (some v) := by
    show mapExc .CACHE_GET_FAILED (env.get 0) = .ok (some v)
    rw [hget]; rfl
  simp only [getOrSet, hval, hab, Bool.false_eq_true, if_false, flow, hc]
  have hsn : (cacheGetOp env (st0 : St V)).2 = (⟨[Event.cacheGet], 0⟩ : St V) := rfl
  rw [hsn]
  cases (runHookPair env .onHit (⟨[Event.cacheGet], 0⟩ : St V)).1 <;> rfl

/-! Gets-versus-iterations accounting of the poll loop: every iteration
performs exactly one cache read. -/

theorem pollLoop_gets_eq_steps (env : Env V) (start : Nat) :
    ∀ fuel attempt st,
      countE isCacheGetE (pollLoop env start attempt fuel st).2.trace +
          countE isPollStepE st.trace =
        countE isPollStepE (pollLoop env start attempt fuel st).2.trace +
          countE isCacheGetE st.trace := by
  intro fuel
  induction fuel with
  | zero => intro attempt st; exact Nat.add_comm _ _
  | succ n ih =>
    intro attempt st
    rw [pollLoop]
    cases h1 : (cacheGetOp env ⟨st.trace ++ [Event.pollStep], st.now⟩).1 with
    | error e =>
      simp only [h1, cacheGetOp_snd]
      simp [countE, List.countP_append, List.countP_cons, isCacheGetE, isPollStepE]
      omega
    | ok o =>
      cases o with
      | some v =>
        simp only [h1, cacheGetOp_snd]
        simp [countE, List.countP_append, List.countP_cons, isCacheGetE, isPollStepE]
        omega
      | none =>
        simp only [h1]
        cases h2 : (leaseIsReadyOp env (cacheGetOp env ⟨st.trace ++ [Event.pollStep], st.now⟩).2).1 with
        | error e =>
          simp only [h2]
          rw [countE_isReadyOp isCacheGetE rfl, countE_isReadyOp isPollStepE rfl, cacheGetOp_snd]
          simp [countE, List.countP_append, List.countP_cons, isCacheGetE, isPollStepE]
          omega
        | ok rs =>
          simp only [h2]
          split
          · rw [countE_isReadyOp isCacheGetE rfl, countE_isReadyOp isPollStepE rfl, cacheGetOp_snd]
            simp [countE, List.countP_append, List.countP_cons, isCacheGetE, isPollStepE]
            omega
          · split
            · rw [countE_isReadyOp isCacheGetE rfl, countE_isReadyOp isPollStepE rfl, cacheGetOp_snd]
              simp [countE, List.countP_append, List.countP_cons, isCacheGetE, isPollStepE]
              omega
            · cases h3 : (strategyOp env attempt
                  (leaseIsReadyOp env (cacheGetOp env ⟨st.trace ++ [Event.pollStep], st.now⟩).2).2).1 with
              | error e =>
                simp only [h3, strategyOp_snd]
                rw [countE_snoc, countE_snoc, countE_isReadyOp isCacheGetE rfl,
                  countE_isReadyOp isPollStepE rfl, cacheGetOp_snd]
                simp [countE, List.countP_append, List.countP_cons, isCacheGetE, isPollStepE]
                omega
              | ok d =>
                simp only [h3]
                have hrec := ih (attempt + 1)
                  ⟨(strategyOp env attempt
                      (leaseIsReadyOp env (cacheGetOp env ⟨st.trace ++ [Event.pollStep], st.now⟩).2).2).2.trace ++
                    [Event.sleep (min d (env.opts.waitMax -
                      ((leaseIsReadyOp env (cacheGetOp env ⟨st.trace ++ [Event.pollStep], st.now⟩).2).2.now - start)))],
                   (strategyOp env attempt
                      (leaseIsReadyOp env (cacheGetOp env ⟨st.trace ++ [Event.pollStep], st.now⟩).2).2).2.now +
                    min d (env.opts.waitMax -
                      ((leaseIsReadyOp env (cacheGetOp env ⟨st.trace ++ [Event.pollStep], st.now⟩).2).2.now - start))⟩
                have hTg : ∀ p : Event V → Bool,
                    p (Event.strategyRun attempt) = false →
                    (∀ m, p (Event.sleep m) = false) → p Event.leaseIsReady = false →
                    countE p
                      ((strategyOp env attempt
                        (leaseIsReadyOp env (cacheGetOp env ⟨st.trace ++ [Event.pollStep], st.now⟩).2).2).2.trace ++
                        [Event.sleep (min d (env.opts.waitMax -
                          ((leaseIsReadyOp env (cacheGetOp env ⟨st.trace ++ [Event.pollStep], st.now⟩).2).2.now - start)))]) =
                      countE p st.trace +
                        ((if p Event.pollStep then 1 else 0) + (if p Event.cacheGet then 1 else 0)) := by
                  intro p hp3 hp4 hp5
                  rw [countE_snoc, strategyOp_snd]
                  simp only [St.trace]
                  rw [countE_snoc, countE_isReadyOp p hp5, cacheGetOp_snd]
                  simp only [St.trace]
                  rw [countE_snoc, countE_snoc]
                  simp [hp3, hp4]
                  omega
                have hg := hTg isCacheGetE rfl (fun m => rfl) rfl
                have hs := hTg isPollStepE rfl (fun m => rfl) rfl
                simp only [isCacheGetE, isPollStepE, if_true, if_false] at hg hs
                rw [hg] at hrec
                rw [hs] at hrec
                omega

/-! Claim theorems. -/

/-- C1: for every getOrSet call that acquires the lease as leader, a lease
release for the call's (key, ownerId) is attempted exactly once on every
exit path — the environment, and hence the outcome of the fetcher,
cache.set, markReady and the hooks, is arbitrary — and the behaviour of
the release operation itself never affects the call's result (release
failures are swallowed). -/
theorem C1_leader_release_once (env : Env V) (fuel : Nat) (u : Nat)
    (hval : validateArgs env = .ok ()) (hab : abortedAtStart env = false)
    (hget : env.get 0 = .ok none) (hacq : env.acquire = .ok ⟨.leader, u⟩) :
    countE isReleaseE (getOrSet env fuel st0).2.trace = 1 ∧
      ∀ r1 r2 : Except Thrown Unit,
        getOrSet { env with release := r1 } fuel st0 =
          getOrSet { env with release := r2 } fuel st0 := by
  constructor
  · rw [getOrSet_leader_eq env fuel u hval hab hget hacq, runLeaderWithRelease_snd]
    rw [countE_snoc,
      countE_runLeader isReleaseE rfl (fun _ _ => rfl) rfl (fun _ _ => rfl) env _ _]
    rfl
  · intro r1 r2
    rw [getOrSet_leader_eq { env with release := r1 } fuel u hval hab hget hacq,
        getOrSet_leader_eq { env with release := r2 } fuel u hval hab hget hacq]
    rfl

/-- C1 witness: the concrete single-caller leader environment attempts the
release exactly once. -/
theorem C1_witness : countE isReleaseE (getOrSet envLeaderW 3 st0).2.trace = 1 :=
  (C1_leader_release_once envLeaderW 3 100 rfl rfl rfl rfl).1

/-- C2: a call whose initial cache probe returns a value performs no lease
operation of any kind, no fetcher invocation and no cache.set — it is
equivalent to a read — and (when the onHit hooks, if defined, succeed)
returns that cached value with outcome HIT. -/
theorem C2_hit_is_pure_read (env : Env V) (fuel : Nat) (v : V)
    (hval : validateArgs env = .ok ()) (hab : abortedAtStart env = false)
    (hget : env.get 0 = .ok (some v)) :
    (hookSlotOk (env.hookBase .onHit) = true → hookSlotOk (env.hookOver .onHit) = true →
      (getOrSet env fuel st0).1 = .ok ⟨v, ⟨.HIT, none, none⟩⟩) ∧
    countE isLeaseOpE (getOrSet env fuel st0).2.trace = 0 ∧
    countE isCacheSetE (getOrSet env fuel st0).2.trace = 0 ∧
    countE isFetchE (getOrSet env fuel st0).2.trace = 0 := by
  rw [getOrSet_hit_eq env fuel v hval hab hget]
  refine ⟨?_, ?_, ?_, ?_⟩
  · intro hb ho
    have h1 : (runHookPair env .onHit (⟨[Event.cacheGet], 0⟩ : St V)).1 = .ok () :=
      runHookPair_ok_of env .onHit _ hb ho
    show (match (runHookPair env .onHit (⟨[Event.cacheGet], 0⟩ : St V)).1 with
      | .error e => (Except.error e : Except ErrTag (GetOrSetResult V))
      | .ok _ => .ok ⟨v, ⟨.HIT, none, none⟩⟩) = .ok ⟨v, ⟨.HIT, none, none⟩⟩
    rw [h1]
  · show countE isLeaseOpE (runHookPair env .onHit (⟨[Event.cacheGet], 0⟩ : St V)).2.trace = 0
    rw [countE_runHookPair isLeaseOpE (fun _ _ => rfl) env .onHit _]
    rfl
  · show countE isCacheSetE (runHookPair env .onHit (⟨[Event.cacheGet], 0⟩ : St V)).2.trace = 0
    rw [countE_runHookPair isCacheSetE (fun _ _ => rfl) env .onHit _]
    rfl
  · show countE isFetchE (runHookPair env .onHit (⟨[Event.cacheGet], 0⟩ : St V)).2.trace = 0
    rw [countE_runHookPair isFetchE (fun _ _ => rfl) env .onHit _]
    rfl

/-- C2 witness: the concrete hit environment returns the cached value. -/
theorem C2_witness : (getOrSet envHitW 2 st0).1 = .ok ⟨7, ⟨.HIT, none, none⟩⟩ :=
  (C2_hit_is_pure_read envHitW 2 7 rfl rfl rfl).1 rfl rfl

/-- C3: a call that takes the follower branch never performs cache.set,
leases.release or leases.markReady, for any behaviour of the environment,
and performs exactly the one lease acquisition. -/
theorem C3_follower_frame (env : Env V) (fuel : Nat) (u : Nat)
    (hval : validateArgs env = .ok ()) (hab : abortedAtStart env = false)
    (hget : env.get 0 = .ok none) (hacq : env.acquire = .ok ⟨.follower, u⟩) :
    countE isMutE (getOrSet env fuel st0).2.trace = 0 ∧
    countE isAcquireE (getOrSet env fuel st0).2.trace = 1 := by
  rw [getOrSet_follower_eq env fuel u hval hab hget hacq]
  constructor
  · rw [countE_runFollower isMutE rfl rfl rfl (fun _ => rfl) (fun _ => rfl) (fun _ _ => rfl) rfl]
    rfl
  · rw [countE_runFollower isAcquireE rfl rfl rfl (fun _ => rfl) (fun _ => rfl) (fun _ _ => rfl) rfl]
    rfl

/-- C3 witness: the concrete follower environment performs no mutating
operation. -/
theorem C3_witness : countE isMutE (getOrSet envFollowerW 3 st0).2.trace = 0 :=
  (C3_follower_frame envFollowerW 3 50 rfl rfl rfl rfl).1

/-- C4: for every successful getOrSet result, meta.leaseUntil is absent
exactly when the outcome is HIT, and when the outcome is HIT meta.waited
is also absent. -/
theorem C4_meta_invariant (env : Env V) (fuel : Nat) (st : St V) (res : GetOrSetResult V)
    (h : (getOrSet env fuel st).1 = .ok res) :
    (res.meta.leaseUntil = none ↔ res.meta.cache = .HIT) ∧
    (res.meta.cache = .HIT → res.meta.waited = none) := by
  cases hv : validateArgs env with
  | error e =>
    simp only [getOrSet, hv] at h
    exact Except.noConfusion h
  | ok u0 =>
    cases hab : abortedAtStart env with
    | true =>
      simp only [getOrSet, hv, hab, if_true] at h
      exact Except.noConfusion h
    | false =>
      simp only [getOrSet, hv, hab, Bool.false_eq_true, if_false] at h
      cases h1 : (cacheGetOp env st).1 with
      | error e =>
        simp only [flow, h1] at h
        exact Except.noConfusion h
      | ok o =>
        cases o with
        | some v =>
          cases h2 : (runHookPair env .onHit (cacheGetOp env st).2).1 with
          | error e =>
            simp only [flow, h1, h2] at h
            exact Except.noConfusion h
          | ok u2 =>
            simp only [flow, h1, h2] at h
            injection h with h
            subst h
            exact ⟨⟨fun _ => rfl, fun _ => rfl⟩, fun _ => rfl⟩
        | none =>
          cases h2 : (leaseAcquireOp env (cacheGetOp env st).2).1 with
          | error e =>
            simp only [flow, h1, h2] at h
            exact Except.noConfusion h
          | ok lease =>
            cases hrole : lease.role with
            | leader =>
              simp only [flow, h1, h2, hrole] at h
              rw [runLeaderWithRelease_fst] at h
              obtain ⟨hl, hw, hc⟩ := runLeader_ok env lease _ res h
              refine ⟨⟨fun hn => ?_, fun hh => ?_⟩, fun hh => hw⟩
              · rw [hl] at hn; exact Option.noConfusion hn
              · rcases hc with hc | hc <;> (rw [hc] at hh; exact CacheOutcome.noConfusion hh)
            | follower =>
              simp only [flow, h1, h2, hrole] at h
              obtain ⟨hl, ⟨w, hw⟩, hc⟩ := runFollower_ok env lease fuel _ res h
              refine ⟨⟨fun hn => ?_, fun hh => ?_⟩, fun hh => ?_⟩
              · rw [hl] at hn; exact Option.noConfusion hn
              · rcases hc with hc | hc <;> (rw [hc] at hh; exact CacheOutcome.noConfusion hh)
              · rcases hc with hc | hc <;> (rw [hc] at hh; exact CacheOutcome.noConfusion hh)

/-- C4 witness: the successful leader result of the concrete environment
satisfies the meta invariant. -/
theorem C4_witness :
    ((⟨42, ⟨.MISS_LEADER, some 100, none⟩⟩ : GetOrSetResult Nat).meta.leaseUntil = none ↔
      (⟨42, ⟨.MISS_LEADER, some 100, none⟩⟩ : GetOrSetResult Nat).meta.cache = .HIT) ∧
    ((⟨42, ⟨.MISS_LEADER, some 100, none⟩⟩ : GetOrSetResult Nat).meta.cache = .HIT →
      (⟨42, ⟨.MISS_LEADER, some 100, none⟩⟩ : GetOrSetResult Nat).meta.waited = none) :=
  C4_meta_invariant envLeaderW 3 st0 _ rfl

/-- C5 amended: every poll iteration performs exactly one cache.get; when
the loop exits without having observed a cached value (ready or expired
signal, or exhausted budget), exactly one additional final cache.get is
performed and its presence decides HIT versus FALLBACK; when the loop
exits because a poll observed a cached value, no additional final get is
performed. -/
theorem C5_wait_loop_gets (env : Env V) (fuel : Nat) (st st1 : St V) (r : Option V)
    (hp : pollLoop env st.now 0 fuel st = (.ok r, st1)) :
    (countE isCacheGetE st1.trace + countE isPollStepE st.trace =
      countE isPollStepE st1.trace + countE isCacheGetE st.trace) ∧
    (∀ v, r = some v →
      waitForCache env fuel st = (.ok ⟨some v, st1.now - st.now, .hit⟩, st1)) ∧
    (r = none →
      (waitForCache env fuel st).2.trace = st1.trace ++ [Event.cacheGet] ∧
      (∀ v, env.get (countE isCacheGetE st1.trace) = .ok (some v) →
        waitForCache env fuel st =
          (.ok ⟨some v, st1.now - st.now, .hit⟩, ⟨st1.trace ++ [Event.cacheGet], st1.now⟩)) ∧
      (env.get (countE isCacheGetE st1.trace) = .ok none →
        waitForCache env fuel st =
          (.ok ⟨none, st1.now - st.now, .fallback⟩, ⟨st1.trace ++ [Event.cacheGet], st1.now⟩))) := by
  have hf : (pollLoop env st.now 0 fuel st).1 = .ok r := by rw [hp]
  have hs : (pollLoop env st.now 0 fuel st).2 = st1 := by rw [hp]
  refine ⟨?_, ?_, ?_⟩
  · have hgs := pollLoop_gets_eq_steps env st.now fuel 0 st
    rw [hs] at hgs
    exact hgs
  · intro v hv
    subst hv
    simp only [waitForCache, hf, hs]
  · intro hv
    subst hv
    refine ⟨?_, ?_, ?_⟩
    · simp only [waitForCache, hf, hs]
      cases hcc : (cacheGetOp env st1).1 with
      | error e => simp only [hcc, cacheGetOp_snd]
      | ok r2 => simp only [hcc, cacheGetOp_snd]
    · intro v hv2
      have hcc : (cacheGetOp env st1).1 = .ok (some v) := by
        show mapExc .CACHE_GET_FAILED (env.get (countE isCacheGetE st1.trace)) = .ok (some v)
        rw [hv2]; rfl
      simp only [waitForCache, hf, hs, hcc]
      rfl
    · intro hv2
      have hcc : (cacheGetOp env st1).1 = .ok none := by
        show mapExc .CACHE_GET_FAILED (env.get (countE isCacheGetE st1.trace)) = .ok none
        rw [hv2]; rfl
      simp only [waitForCache, hf, hs, hcc]
      rfl

/-- C5 witness: the concrete follower environment exits its single poll
iteration on the ready signal; its loop performed exactly one cache.get
(one per iteration). -/
theorem C5_witness :
    countE isCacheGetE ([Event.pollStep, Event.cacheGet, Event.leaseIsReady] : List (Event Nat)) +
        countE isPollStepE ((st0 : St Nat)).trace =
      countE isPollStepE ([Event.pollStep, Event.cacheGet, Event.leaseIsReady] : List (Event Nat)) +
        countE isCacheGetE ((st0 : St Nat)).trace :=
  (C5_wait_loop_gets envFollowerW 1 st0 ⟨[Event.pollStep, Event.cacheGet, Event.leaseIsReady], 0⟩
    none rfl).1

/-- C5 counterexample: when the first poll iteration observes a cached
value, waitForCache performs no additional final cache.get — the whole
wait phase does exactly one get for its one iteration, not one per
iteration plus one final get as the claim states for every exit reason. -/
theorem C5_counterexample :
    waitForCache envC5x 3 st0 =
      (.ok ⟨some 7, 0, .hit⟩, ⟨[Event.pollStep, Event.cacheGet], 0⟩) ∧
    countE isCacheGetE ([Event.pollStep, Event.cacheGet] : List (Event Nat)) ≠
      countE isPollStepE ([Event.pollStep, Event.cacheGet] : List (Event Nat)) + 1 :=
  ⟨rfl, by decide⟩

/-- C6: negative millisecond inputs for leaseTtl, waitMax, waitStep and
cacheTtl are clamped to zero when decoded, so the resolved options and
hence the TTL values at the cache and lease adapter call sites are never
negative; the adapter-side clamp toMillisClamped also yields zero. -/
theorem C6_negative_ttl_clamped (n : Int) (o : String) (env : Env Nat) (st : St Nat)
    (hn : n < 0) :
    durationDecode n = 0 ∧ toMillisClamped n = 0 ∧
    mkResolvedOptions n n n (some n) o = ⟨0, 0, 0, some 0, o⟩ ∧
    (leaseAcquireOp { env with opts := mkResolvedOptions n n n (some n) o } st).2.trace =
      st.trace ++ [Event.leaseAcquire o 0] ∧
    ∀ v : Nat, (cacheSetOp { env with opts := mkResolvedOptions n n n (some n) o } v st).2.trace =
      st.trace ++ [Event.cacheSet v (some 0)] := by
  have hd : durationDecode n = 0 := by
    unfold durationDecode
    rw [max_eq_right hn.le]
    rfl
  refine ⟨hd, ?_, ?_, ?_, ?_⟩
  · unfold toMillisClamped
    rw [max_eq_left hn.le]
    rfl
  · simp [mkResolvedOptions, hd]
  · rw [leaseAcquireOp_snd]
    simp [mkResolvedOptions, hd]
  · intro v
    rw [cacheSetOp_snd]
    simp [mkResolvedOptions, hd]

/-- C6 witness: the concrete negative input -5 ms decodes to the zero
duration. -/
theorem C6_witness : durationDecode (-5) = 0 :=
  (C6_negative_ttl_clamped (-5) "o" envLeaderW st0 (by decide)).1

/-- C7 amended: with validation enabled, the key is rejected with
VALIDATION_ERROR exactly when its trimmed form is empty (so the
whitespace-only key, a non-empty string, is rejected); every key with
non-whitespace content passes key validation and the call proceeds to the
cache probe (given the rest of the arguments validate and the signal is
not already aborted). -/
theorem C7_key_validation (env : Env V) (fuel : Nat) (st : St V) :
    (env.validateOptions = true → keyAccepted env.keyRaw = false →
      getOrSet env fuel st = (.error .VALIDATION_ERROR, st)) ∧
    (validateArgs env = .ok () → abortedAtStart env = false →
      ∃ rest, (getOrSet env fuel st0).2.trace = Event.cacheGet :: rest) := by
  constructor
  · intro h1 h2
    have hv : validateArgs env = .error .VALIDATION_ERROR := by
      simp [validateArgs, h1, h2]
    simp [getOrSet, hv]
  · intro hval hab
    rw [getOrSet_flow_eq env fuel st0 hval hab]
    cases hc : (cacheGetOp env (st0 : St V)).1 with
    | error e =>
      simp only [flow, hc]
      exact ⟨[], rfl⟩
    | ok o =>
      cases o with
      | some v =>
        obtain ⟨d, hd⟩ := ext_runHookPair env .onHit (cacheGetOp env (st0 : St V)).2
        cases hh : (runHookPair env .onHit (cacheGetOp env (st0 : St V)).2).1 with
        | error e =>
          simp only [flow, hc, hh]
          exact ⟨d, by rw [hd]; rfl⟩
        | ok u =>
          simp only [flow, hc, hh]
          exact ⟨d, by rw [hd]; rfl⟩
      | none =>
        cases ha : (leaseAcquireOp env (cacheGetOp env (st0 : St V)).2).1 with
        | error e =>
          simp only [flow, hc, ha]
          exact ⟨[Event.leaseAcquire env.opts.ownerId env.opts.leaseTtl], rfl⟩
        | ok lease =>
          cases hrole : lease.role with
          | leader =>
            simp only [flow, hc, ha, hrole]
            obtain ⟨d, hd⟩ := ext_runLeaderWithRelease env lease
              (leaseAcquireOp env (cacheGetOp env (st0 : St V)).2).2
            exact ⟨Event.leaseAcquire env.opts.ownerId env.opts.leaseTtl :: d, by rw [hd]; rfl⟩
          | follower =>
            simp only [flow, hc, ha, hrole]
            obtain ⟨d, hd⟩ := ext_runFollower env lease fuel
              (leaseAcquireOp env (cacheGetOp env (st0 : St V)).2).2
            exact ⟨Event.leaseAcquire env.opts.ownerId env.opts.leaseTtl :: d, by rw [hd]; rfl⟩

/-- C7 witness: the whitespace-only key is rejected by validation before
any event is emitted. -/
theorem C7_witness : getOrSet envC7x 2 st0 = (.error .VALIDATION_ERROR, st0) :=
  (C7_key_validation envC7x 2 st0).1 rfl rfl

/-- C7 counterexample: the key of one space character is a non-empty
string, yet validation rejects the call with VALIDATION_ERROR — refuting
that every non-empty key string is accepted. -/
theorem C7_counterexample :
    getOrSet envC7x 3 st0 = (.error .VALIDATION_ERROR, st0) ∧ envC7x.keyRaw ≠ "" :=
  ⟨rfl, by decide⟩

/-- C8 amended: when the wait strategy throws a value that is not already
a tagged cache-locking error, the call fails WAIT_STRATEGY_FAILED; when it
returns an invalid delay, the call fails VALIDATION_ERROR (from
waitDelaySchema decoding); in both cases the failure propagates
immediately and the strategy is invoked exactly once — it is never
retried. -/
theorem C8_wait_strategy_failure (env : Env V) (fuel : Nat) (u : Nat)
    (hval : validateArgs env = .ok ()) (hab : abortedAtStart env = false)
    (h0 : env.get 0 = .ok none) (h1 : env.get 1 = .ok none)
    (hacq : env.acquire = .ok ⟨.follower, u⟩) (hir : env.hasIsReady = false)
    (hwm : 0 < env.opts.waitMax) :
    (∀ c, env.waitStrategy 0 = .error (.raw c) →
      getOrSet env (fuel + 1) st0 = (.error .WAIT_STRATEGY_FAILED,
        ⟨[Event.cacheGet, Event.leaseAcquire env.opts.ownerId env.opts.leaseTtl,
          Event.pollStep, Event.cacheGet, Event.strategyRun 0], 0⟩)) ∧
    (∀ d, env.waitStrategy 0 = .ok d → decodeWaitDelay d = .error .VALIDATION_ERROR →
      getOrSet env (fuel + 1) st0 = (.error .VALIDATION_ERROR,
        ⟨[Event.cacheGet, Event.leaseAcquire env.opts.ownerId env.opts.leaseTtl,
          Event.pollStep, Event.cacheGet, Event.strategyRun 0], 0⟩)) ∧
    countE isStrategyE
      ([Event.cacheGet, Event.leaseAcquire env.opts.ownerId env.opts.leaseTtl,
        Event.pollStep, Event.cacheGet, Event.strategyRun 0] : List (Event V)) = 1 := by
  have key : ∀ tag : ErrTag,
      (strategyOp env 0 (⟨[Event.cacheGet, Event.leaseAcquire env.opts.ownerId env.opts.leaseTtl,
        Event.pollStep, Event.cacheGet], 0⟩ : St V)).1 = .error tag →
      getOrSet env (fuel + 1) st0 = (.error tag,
        ⟨[Event.cacheGet, Event.leaseAcquire env.opts.ownerId env.opts.leaseTtl,
          Event.pollStep, Event.cacheGet, Event.strategyRun 0], 0⟩) := by
    intro tag hstf
    rw [getOrSet_follower_eq env (fuel + 1) u hval hab h0 hacq]
    have hpoll : pollLoop env 0 0 (fuel + 1)
        (⟨[Event.cacheGet, Event.leaseAcquire env.opts.ownerId env.opts.leaseTtl], 0⟩ : St V) =
        (.error tag, ⟨[Event.cacheGet, Event.leaseAcquire env.opts.ownerId env.opts.leaseTtl,
          Event.pollStep, Event.cacheGet, Event.strategyRun 0], 0⟩) := by
      rw [pollLoop]
      have hcg : (cacheGetOp env (⟨[Event.cacheGet, Event.leaseAcquire env.opts.ownerId
          env.opts.leaseTtl] ++ [Event.pollStep], 0⟩ : St V)).1 = .ok none := by
        show mapExc .CACHE_GET_FAILED (env.get 1) = .ok none
        rw [h1]; rfl
      simp only [cacheGetOp_snd, hcg]
      have hpair := leaseIsReadyOp_not env
        (⟨([Event.cacheGet, Event.leaseAcquire env.opts.ownerId env.opts.leaseTtl] ++
            [Event.pollStep]) ++ [Event.cacheGet], 0⟩ : St V) hir
      simp only [hpair, readySignal, Bool.false_eq_true, if_false]
      have hrem : ¬ (env.opts.waitMax - ((0 : Nat) - 0) = 0) := by
        simpa using Nat.pos_iff_ne_zero.mp hwm
      rw [if_neg hrem]
      have hstf2 : (strategyOp env 0
          (⟨[Event.cacheGet, Event.leaseAcquire env.opts.ownerId env.opts.leaseTtl] ++
            [Event.pollStep] ++ [Event.cacheGet], 0⟩ : St V)).1 = .error tag := hstf
      simp only [hstf2, strategyOp_snd]
      rfl
    have hf2 : (pollLoop env 0 0 (fuel + 1)
        (⟨[Event.cacheGet, Event.leaseAcquire env.opts.ownerId env.opts.leaseTtl], 0⟩ : St V)).1 =
        .error tag := by rw [hpoll]
    have hs2 : (pollLoop env 0 0 (fuel + 1)
        (⟨[Event.cacheGet, Event.leaseAcquire env.opts.ownerId env.opts.leaseTtl], 0⟩ : St V)).2 =
        ⟨[Event.cacheGet, Event.leaseAcquire env.opts.ownerId env.opts.leaseTtl,
          Event.pollStep, Event.cacheGet, Event.strategyRun 0], 0⟩ := by rw [hpoll]
    have hwf : waitForCache env (fuel + 1)
        (⟨[Event.cacheGet, Event.leaseAcquire env.opts.ownerId env.opts.leaseTtl], 0⟩ : St V) =
        (.error tag, ⟨[Event.cacheGet, Event.leaseAcquire env.opts.ownerId env.opts.leaseTtl,
          Event.pollStep, Event.cacheGet, Event.strategyRun 0], 0⟩) := by
      simp only [waitForCache, hf2, hs2]
    have hf3 := congrArg Prod.fst hwf
    have hs3 := congrArg Prod.snd hwf
    simp only [runFollower, hf3, hs3]
  refine ⟨?_, ?_, ?_⟩
  · intro c hc
    apply key
    show ((match env.waitStrategy 0 with
      | Except.error t => Except.error (mapThrown .WAIT_STRATEGY_FAILED t)
      | Except.ok d => decodeWaitDelay d : Except ErrTag Nat)) =
        Except.error .WAIT_STRATEGY_FAILED
    rw [hc]
    rfl
  · intro d hd hdec
    apply key
    show ((match env.waitStrategy 0 with
      | Except.error t => Except.error (mapThrown .WAIT_STRATEGY_FAILED t)
      | Except.ok d => decodeWaitDelay d : Except ErrTag Nat)) =
        Except.error .VALIDATION_ERROR
    rw [hd]
    exact hdec
  · rfl

/-- C8 witness: the concrete strategy that throws a raw error surfaces as
WAIT_STRATEGY_FAILED after exactly one strategy invocation. -/
theorem C8_witness :
    getOrSet envC8w 1 st0 = (.error .WAIT_STRATEGY_FAILED,
      ⟨[Event.cacheGet, Event.leaseAcquire "o2" 1000, Event.pollStep, Event.cacheGet,
        Event.strategyRun 0], 0⟩) :=
  (C8_wait_strategy_failure envC8w 0 50 rfl rfl rfl rfl rfl rfl (by decide)).1 3 rfl

/-- C8 counterexample: a strategy returning an invalid delay makes the
call fail with tag VALIDATION_ERROR, not WAIT_STRATEGY_FAILED as the claim
states. -/
theorem C8_counterexample :
    getOrSet envC8x 1 st0 = (.error .VALIDATION_ERROR,
      ⟨[Event.cacheGet, Event.leaseAcquire "o2" 1000, Event.pollStep, Event.cacheGet,
        Event.strategyRun 0], 0⟩) ∧
    ErrTag.VALIDATION_ERROR ≠ ErrTag.WAIT_STRATEGY_FAILED :=
  ⟨rfl, by decide⟩

/-- C9 amended: a call whose signal is already aborted at the start fails
ABORTED with no cache and no lease interaction, provided its arguments
pass validation (or validation is disabled); validation errors are raised
before the abort pre-check. -/
theorem C9_aborted_precheck (env : Env V) (fuel : Nat) (st : St V)
    (hval : validateArgs env = .ok ()) (hab : abortedAtStart env = true) :
    getOrSet env fuel st = (.error .ABORTED, st) := by
  simp [getOrSet, hval, hab]

/-- C9 witness: the concrete pre-aborted environment fails ABORTED with an
unchanged trace. -/
theorem C9_witness : getOrSet envC9w 2 st0 = (.error .ABORTED, st0) :=
  C9_aborted_precheck envC9w 2 st0 rfl rfl

/-- C9 counterexample: with an already-aborted signal and an invalid
(empty) key under validation, the call fails VALIDATION_ERROR, not
ABORTED — refuting the claim for arbitrary inputs. -/
theorem C9_counterexample :
    getOrSet envC9x 2 st0 = (.error .VALIDATION_ERROR, st0) ∧
    abortedAtStart envC9x = true ∧
    ErrTag.VALIDATION_ERROR ≠ ErrTag.ABORTED :=
  ⟨rfl, rfl, by decide⟩

/-- C10 amended: for each hook event the instance-default hook runs before
the per-call hook (visible in the trace order, and the per-call hook never
runs when the default hook failed); a hook failure always propagates out
of getOrSet; a raw (untagged) hook failure is mapped to HOOK_FAILED, while
a hook that throws an already-tagged cache-locking error re-raises that
tag unchanged. -/
theorem C10_hook_order_and_failure (env : Env V) (fuel : Nat) (v : V)
    (hval : validateArgs env = .ok ()) (hab : abortedAtStart env = false)
    (hget : env.get 0 = .ok (some v)) :
    (env.hookBase .onHit = some (.ok ()) → env.hookOver .onHit = some (.ok ()) →
      getOrSet env fuel st0 = (.ok ⟨v, ⟨.HIT, none, none⟩⟩,
        ⟨[Event.cacheGet, Event.hookRun .onHit .base, Event.hookRun .onHit .override], 0⟩)) ∧
    (∀ c, env.hookBase .onHit = some (.error (.raw c)) →
      getOrSet env fuel st0 = (.error .HOOK_FAILED,
        ⟨[Event.cacheGet, Event.hookRun .onHit .base], 0⟩)) ∧
    (∀ c, env.hookBase .onHit = some (.ok ()) → env.hookOver .onHit = some (.error (.raw c)) →
      getOrSet env fuel st0 = (.error .HOOK_FAILED,
        ⟨[Event.cacheGet, Event.hookRun .onHit .base, Event.hookRun .onHit .override], 0⟩)) ∧
    (∀ t, env.hookBase .onHit = some (.error (.tagged t)) →
      getOrSet env fuel st0 = (.error t, ⟨[Event.cacheGet, Event.hookRun .onHit .base], 0⟩)) ∧
    (∀ (k : HookKind) (s : St V) (c : Nat), env.hookBase k = some (.error (.raw c)) →
      runHookPair env k s = (.error .HOOK_FAILED, ⟨s.trace ++ [Event.hookRun k .base], s.now⟩)) := by
  refine ⟨?_, ?_, ?_, ?_, ?_⟩
  · intro hB hO
    rw [getOrSet_hit_eq env fuel v hval hab hget]
    have hpp : runHookPair env .onHit (⟨[Event.cacheGet], 0⟩ : St V) =
        (.ok (), ⟨[Event.cacheGet, Event.hookRun .onHit .base, Event.hookRun .onHit .override], 0⟩) := by
      simp [runHookPair, runHookOver, hB, hO, mapExc]
    simp only [hpp]
  · intro c hB
    rw [getOrSet_hit_eq env fuel v hval hab hget]
    have hpp : runHookPair env .onHit (⟨[Event.cacheGet], 0⟩ : St V) =
        (.error .HOOK_FAILED, ⟨[Event.cacheGet, Event.hookRun .onHit .base], 0⟩) := by
      simp [runHookPair, hB, mapThrown]
    simp only [hpp]
  · intro c hB hO
    rw [getOrSet_hit_eq env fuel v hval hab hget]
    have hpp : runHookPair env .onHit (⟨[Event.cacheGet], 0⟩ : St V) =
        (.error .HOOK_FAILED,
          ⟨[Event.cacheGet, Event.hookRun .onHit .base, Event.hookRun .onHit .override], 0⟩) := by
      simp [runHookPair, runHookOver, hB, hO, mapExc, mapThrown]
    simp only [hpp]
  · intro t hB
    rw [getOrSet_hit_eq env fuel v hval hab hget]
    have hpp : runHookPair env .onHit (⟨[Event.cacheGet], 0⟩ : St V) =
        (.error t, ⟨[Event.cacheGet, Event.hookRun .onHit .base], 0⟩) := by
      simp [runHookPair, hB, mapThrown]
    simp only [hpp]
  · intro k s c hB
    simp [runHookPair, hB, mapThrown]

/-- C10 witness: with both onHit hooks defined and succeeding, the
instance-default hook event precedes the per-call hook event in the
trace. -/
theorem C10_witness :
    getOrSet envHitW 2 st0 = (.ok ⟨7, ⟨.HIT, none, none⟩⟩,
      ⟨[Event.cacheGet, Event.hookRun .onHit .base, Event.hookRun .onHit .override], 0⟩) :=
  (C10_hook_order_and_failure envHitW 2 7 rfl rfl rfl).1 rfl rfl

/-- C10 counterexample: a hook that throws an already-tagged
cache-locking error (CACHE_SET_FAILED) surfaces with that tag, not with
HOOK_FAILED as the claim states for any hook failure. -/
theorem C10_counterexample :
    getOrSet envC10x 2 st0 = (.error .CACHE_SET_FAILED,
      ⟨[Event.cacheGet, Event.hookRun .onHit .base], 0⟩) ∧
    ErrTag.CACHE_SET_FAILED ≠ ErrTag.HOOK_FAILED :=
  ⟨rfl, by decide⟩

end CacheLocking
